import Mathlib

/-!
Verification of the metric engine and label codec of the KLUE-RE training
script (`train.py`).

The script's own logic is the three metric functions (`klue_re_micro_f1`,
`klue_re_auprc`, `compute_metrics` with its accuracy) and the label codec
(`label_to_num`).  The metric functions delegate the arithmetic to
`sklearn.metrics`; the embedding below spells out the documented sklearn
semantics (micro-averaged F1 pooled over a given label subset with the
zero-division-yields-zero policy, `precision_recall_curve` sweeping the
distinct score values as thresholds, `auc` as the trapezoidal area) over
exact rational arithmetic.  Scores and metric values are modelled as `ℚ`;
class indices as `ℕ` (with the 30-class bound made explicit where the code
relies on it); the one-hot step `np.eye(30)[labels]`, which raises on an
out-of-range label, is modelled with `Option`.
-/

namespace KlueRE

/-- Embedding of the fixed `label_list` of `klue_re_micro_f1` (train.py
lines 25-35): the 30 relation labels, `no_relation` first. -/
def label_list : List String :=
  ["no_relation", "org:top_members/employees", "org:members",
   "org:product", "per:title", "org:alternate_names",
   "per:employee_of", "org:place_of_headquarters", "per:product",
   "org:number_of_employees/members", "per:children",
   "per:place_of_residence", "per:alternate_names",
   "per:other_family", "per:colleagues", "per:origin", "per:siblings",
   "per:spouse", "org:founded", "org:political/religious_affiliation",
   "org:member_of", "per:parents", "org:dissolved",
   "per:schools_attended", "per:date_of_death", "per:date_of_birth",
   "per:place_of_birth", "per:place_of_death", "org:founded_by",
   "per:religion"]

/-- Embedding of `label_list.index("no_relation")` (train.py line 36). -/
def no_relation_label_idx : ℕ :=
  label_list.indexOf ("no_relation")

/-- Embedding of `label_indices = list(range(len(label_list)));
label_indices.remove(no_relation_label_idx)` (train.py lines 37-38):
`List.erase` removes the first occurrence, as Python's `list.remove` does. -/
def label_indices : List ℕ :=
  (List.range label_list.length).erase no_relation_label_idx

/-- Pooled true positives of `sklearn.metrics.f1_score(y_true, y_pred,
average="micro", labels=L)`: number of examples whose true and predicted
labels agree on a class of `L`. -/
def microTP (ytrue ypred : List ℕ) (L : List ℕ) : ℕ :=
  (ytrue.zip ypred).countP fun x => decide (x.2 = x.1 ∧ x.1 ∈ L)

/-- Pooled false positives: examples predicted into a class of `L` whose
true label is different. -/
def microFP (ytrue ypred : List ℕ) (L : List ℕ) : ℕ :=
  (ytrue.zip ypred).countP fun x => decide (x.2 ∈ L ∧ x.1 ≠ x.2)

/-- Pooled false negatives: examples whose true label is in `L` and whose
prediction is different. -/
def microFN (ytrue ypred : List ℕ) (L : List ℕ) : ℕ :=
  (ytrue.zip ypred).countP fun x => decide (x.1 ∈ L ∧ x.2 ≠ x.1)

/-- Micro-averaged F1 of sklearn restricted to the label subset `L`:
a single precision and recall from the pooled counts, each 0 when its
denominator is 0 (sklearn's zero-division warning path), and
F1 = 2pr/(p+r), 0 when p+r = 0. -/
def microF1 (ytrue ypred : List ℕ) (L : List ℕ) : ℚ :=
  let tp := microTP ytrue ypred L
  let fp := microFP ytrue ypred L
  let fn := microFN ytrue ypred L
  let p : ℚ := if tp + fp = 0 then 0 else (tp : ℚ) / ((tp : ℚ) + (fp : ℚ))
  let r : ℚ := if tp + fn = 0 then 0 else (tp : ℚ) / ((tp : ℚ) + (fn : ℚ))
  if p + r = 0 then 0 else 2 * p * r / (p + r)

/-- Embedding of `klue_re_micro_f1(preds, labels)` (train.py lines 23-39):
`sklearn.metrics.f1_score(labels, preds, average="micro",
labels=label_indices) * 100.0`. -/
def klue_re_micro_f1 (preds labels : List ℕ) : ℚ :=
  microF1 labels preds label_indices * 100

/-- Modelled from the spec: the set of all class indices other than the
ordinal index of `no_relation`, in the fixed 30-class label space. -/
def specKeptIndices : Finset ℕ :=
  (Finset.range 30).erase no_relation_label_idx

/-- Modelled from the spec: micro-averaged F1 with the `no_relation` index
excluded, written independently of `microF1` — true-positive, false-positive
and false-negative counts pooled over all non-excluded class indices, then a
single precision, recall and F1. -/
def specMicroF1Excl (preds labels : List ℕ) : ℚ :=
  let tp := (labels.zip preds).countP fun x => decide (x.2 = x.1 ∧ x.1 ∈ specKeptIndices)
  let fp := (labels.zip preds).countP fun x => decide (x.2 ∈ specKeptIndices ∧ x.1 ≠ x.2)
  let fn := (labels.zip preds).countP fun x => decide (x.1 ∈ specKeptIndices ∧ x.2 ≠ x.1)
  let p : ℚ := if tp + fp = 0 then 0 else (tp : ℚ) / ((tp : ℚ) + (fp : ℚ))
  let r : ℚ := if tp + fn = 0 then 0 else (tp : ℚ) / ((tp : ℚ) + (fn : ℚ))
  if p + r = 0 then 0 else 2 * p * r / (p + r)

/-- Embedding of `label_to_num` (train.py lines 70-77): the unpickled
`dict_label_to_num` is modelled as an association list; the loop appends
`dict_label_to_num[v]` for each `v` in order and a missing key raises a
`KeyError` that aborts the run, modelled as `none`. -/
def label_to_num (dict_label_to_num : List (String × ℕ)) :
    List String → Option (List ℕ)
  | [] => some []
  | v :: vs =>
    (dict_label_to_num.lookup v).bind fun n =>
      (label_to_num dict_label_to_num vs).map fun ns => n :: ns

/-- Number of positive samples of a binary problem, given as a list of
(target, score) pairs. -/
def totalPos (pairs : List (Bool × ℚ)) : ℕ :=
  pairs.countP fun x => x.1

/-- True positives at decision threshold `t`: positives with score at least
`t` (sklearn's `_binary_clf_curve` cumulative `tps` at threshold `t`). -/
def tpAt (pairs : List (Bool × ℚ)) (t : ℚ) : ℕ :=
  pairs.countP fun x => x.1 && decide (t ≤ x.2)

/-- Samples predicted positive at threshold `t`: score at least `t`
(sklearn's `tps + fps`). -/
def predPosAt (pairs : List (Bool × ℚ)) (t : ℚ) : ℕ :=
  pairs.countP fun x => decide (t ≤ x.2)

/-- Precision at threshold `t`, as in `sklearn.metrics
.precision_recall_curve`; thresholds are attained score values, so the
denominator is positive there (`ℚ` division by 0 would give 0). -/
def precisionAt (pairs : List (Bool × ℚ)) (t : ℚ) : ℚ :=
  (tpAt pairs t : ℚ) / (predPosAt pairs t : ℚ)

/-- Recall at threshold `t`, as in `precision_recall_curve`: when the batch
has no positive sample, sklearn warns and sets recall to one for all
thresholds; otherwise `tps / tps[-1]`. -/
def recallAt (pairs : List (Bool × ℚ)) (t : ℚ) : ℚ :=
  if totalPos pairs = 0 then 1 else (tpAt pairs t : ℚ) / (totalPos pairs : ℚ)

/-- Decision thresholds of `precision_recall_curve`: the distinct score
values, in increasing order (the order of sklearn's returned arrays). -/
def prThresholds (pairs : List (Bool × ℚ)) : List ℚ :=
  (pairs.map Prod.snd).toFinset.sort (fun a b => a ≤ b)

/-- Points (recall, precision) of the precision-recall curve as returned by
`precision_recall_curve`: one point per threshold in increasing threshold
order (recall decreasing), with the final point (0, 1) appended.  sklearn
additionally trims trailing thresholds past the first one attaining full
recall; all trimmed points share the recall of the kept end point, so the
trimmed segments have zero width and the area below is unchanged. -/
def prCurvePoints (pairs : List (Bool × ℚ)) : List (ℚ × ℚ) :=
  ((prThresholds pairs).map fun t => (recallAt pairs t, precisionAt pairs t)) ++ [(0, 1)]

/-- Trapezoidal area of `sklearn.metrics.auc` along a list of (x, y) points
with `x` decreasing (direction -1): sum of (x i - x (i+1)) * (y i + y (i+1)) / 2. -/
def trapezoidArea : List (ℚ × ℚ) → ℚ
  | p :: q :: rest => (p.1 - q.1) * (p.2 + q.2) / 2 + trapezoidArea (q :: rest)
  | _ => 0

/-- Area under the precision-recall curve of one binary problem:
`sklearn.metrics.auc(recall, precision)` on the curve of
`precision_recall_curve(targets, scores)`. -/
def auc_pr (pairs : List (Bool × ℚ)) : ℚ :=
  trapezoidArea (prCurvePoints pairs)

/-- Row `l` of `np.eye(30)`, defined for any `l < 30`. -/
def oneHotRow (l : ℕ) : Fin 30 → ℚ :=
  fun c => if l = c.val then 1 else 0

/-- Column `c` of the one-hot matrix `np.eye(30)[labels]`, `ravel`led and
read back as booleans by `precision_recall_curve` (`pos_label = 1`):
`targets_c = labels.take([c], axis=1).ravel()` (train.py line 47). -/
def targetsCol (labels : List ℕ) (c : Fin 30) : List Bool :=
  labels.map fun l => decide (oneHotRow l c = 1)

/-- Column `c` of the probability matrix:
`preds_c = probs.take([c], axis=1).ravel()` (train.py line 48). -/
def predsCol (probs : List (Fin 30 → ℚ)) (c : Fin 30) : List ℚ :=
  probs.map fun r => r c

/-- Index-aligned (target, score) pairs of class `c`'s binary problem, as
consumed by `precision_recall_curve(targets_c, preds_c)`. -/
def classPairs (probs : List (Fin 30 → ℚ)) (labels : List ℕ) (c : Fin 30) :
    List (Bool × ℚ) :=
  (targetsCol labels c).zip (predsCol probs c)

/-- Embedding of `klue_re_auprc(probs, labels)` (train.py lines 41-51).
Probability rows are total functions on `Fin 30`, matching the model's
30-logit output shape.  The one-hot step `np.eye(30)[labels]` raises an
out-of-bounds `IndexError` when some label is ≥ 30, modelled as `none`;
otherwise the result is `np.average(score) * 100.0` over the 30 per-class
areas. -/
def klue_re_auprc (probs : List (Fin 30 → ℚ)) (labels : List ℕ) : Option ℚ :=
  if labels.all fun l => decide (l < 30) then
    some ((∑ c : Fin 30, auc_pr (classPairs probs labels c)) / 30 * 100)
  else none

/-- Modelled from the spec: the per-class AUPRC of class `c` treated as a
binary this-class-vs-rest problem — target of example `i` is whether its
true label equals `c`, score is the class-`c` entry of its probability
vector; the precision-recall curve is swept over the class's scores and the
area under it taken. -/
def specClassAUPRC (probs : List (Fin 30 → ℚ)) (labels : List ℕ) (c : Fin 30) : ℚ :=
  auc_pr ((labels.map fun l => decide (l = c.val)).zip (probs.map fun r => r c))

/-- Modelled from the spec: arithmetic mean of the 30 per-class areas,
multiplied by 100. -/
def specMacroAUPRC (probs : List (Fin 30 → ℚ)) (labels : List ℕ) : ℚ :=
  (∑ c : Fin 30, specClassAUPRC probs labels c) / 30 * 100

/-- Embedding of `np.argmax` over the last axis for one probability row:
index of the maximum entry, first occurrence on ties (`preds =
pred.predictions.argmax(-1)`, train.py line 56). -/
def argmax30 (r : Fin 30 → ℚ) : Fin 30 :=
  (List.finRange 30).foldl (fun best c => if r best < r c then c else best) ⟨0, by decide⟩

/-- Embedding of `sklearn.metrics.accuracy_score(y_true, y_pred)`: fraction
of index-aligned examples where the two labels agree. -/
def accuracy_score (ytrue ypred : List ℕ) : ℚ :=
  ((ytrue.zip ypred).countP fun x => decide (x.1 = x.2) : ℚ) / (ytrue.length : ℚ)

/-- Evaluation batch handed to `compute_metrics` by the trainer:
`pred.label_ids` and `pred.predictions` (train.py lines 55-57). -/
structure EvalPred where
  label_ids : List ℕ
  predictions : List (Fin 30 → ℚ)

/-- The three scalars of the dictionary returned by `compute_metrics`. -/
structure Metrics where
  micro_f1 : ℚ
  auprc : ℚ
  accuracy : ℚ

/-- Embedding of `compute_metrics(pred)` (train.py lines 53-68): argmax
predictions, then the three metrics; an out-of-bounds failure inside
`klue_re_auprc` aborts the whole call (`none`). -/
def compute_metrics (pred : EvalPred) : Option Metrics :=
  let labels := pred.label_ids
  let preds := pred.predictions.map fun r => (argmax30 r).val
  let probs := pred.predictions
  let f1 := klue_re_micro_f1 preds labels
  match klue_re_auprc probs labels with
  | none => none
  | some auprc => some ⟨f1, auprc, accuracy_score labels preds⟩

/-- Modelled from the spec: plain fraction of examples whose argmax
prediction equals the true label, over all 30 classes, with no
`no_relation` exclusion applied. -/
def specArgmaxAccuracy (pred : EvalPred) : ℚ :=
  ((pred.label_ids.zip pred.predictions).countP fun x => decide ((argmax30 x.2).val = x.1) : ℚ)
    / (pred.label_ids.length : ℚ)

/-- Disk state holding the persisted `dict_label_to_num.pkl` artifact. -/
structure Disk where
  dict_label_to_num : List (String × ℕ)

/-- Embedding of `label_to_num` with its disk interaction explicit: each
call opens `dict_label_to_num.pkl` and unpickles it (train.py lines 72-73),
i.e. performs exactly one disk load per call, and never writes.  Returns
the result, the number of disk loads, and the disk state afterwards. -/
def label_to_numLoads (disk : Disk) (label : List String) :
    Option (List ℕ) × ℕ × Disk :=
  (label_to_num disk.dict_label_to_num label, 1, disk)

/-- Embedding of the label-conversion phase of `train` (train.py lines
96-97): `train_label = label_to_num(...)` then `dev_label =
label_to_num(...)`, threading the disk state and accumulating loads. -/
def trainLabelPhase (disk : Disk) (trainLabels devLabels : List String) :
    (Option (List ℕ) × Option (List ℕ)) × ℕ × Disk :=
  let r1 := label_to_numLoads disk trainLabels
  let r2 := label_to_numLoads r1.2.2 devLabels
  ((r1.1, r2.1), r1.2.1 + r2.2.1, r2.2.2)

/-- Concrete two-example probability batch used to instantiate universally
quantified theorems. -/
def demoProbs : List (Fin 30 → ℚ) :=
  [fun c => (c.val : ℚ), fun c => (30 : ℚ) - (c.val : ℚ)]

/-- Concrete true labels matching `demoProbs`. -/
def demoLabels : List ℕ := [1, 0]

/-- Concrete evaluation batch for `compute_metrics`. -/
def demoPred : EvalPred := ⟨demoLabels, demoProbs⟩

/-- Concrete label-to-index association list standing in for the unpickled
`dict_label_to_num`. -/
def demoDict : List (String × ℕ) :=
  [("no_relation", 0), ("org:members", 2)]

theorem zip_self_eq_map {α : Type} (l : List α) : l.zip l = l.map fun a => (a, a) := by
  induction l with
  | nil => rfl
  | cons a t ih => rw [List.zip_cons_cons, List.map_cons, ih]

theorem no_relation_idx_eq : no_relation_label_idx = 0 := by decide

theorem label_indices_eq : label_indices = (List.range 30).erase 0 := by
  rw [label_indices, no_relation_idx_eq]
  rfl

theorem mem_label_indices {x : ℕ} : x ∈ label_indices ↔ x ≠ 0 ∧ x < 30 := by
  rw [label_indices_eq, List.Nodup.mem_erase_iff (List.nodup_range _), List.mem_range]

theorem mem_specKeptIndices {x : ℕ} : x ∈ specKeptIndices ↔ x ≠ 0 ∧ x < 30 := by
  rw [specKeptIndices, no_relation_idx_eq, Finset.mem_erase, Finset.mem_range]

/-- Claim C1: `klue_re_micro_f1` finds the ordinal index of `no_relation` in
the fixed 30-label list (it is 0), forms the set of all other 29 class
indices, and returns 100 times the micro-averaged F1 whose true-positive,
false-positive and false-negative counts are pooled over exactly that index
subset before a single precision, recall and F1 are computed. -/
theorem claim_C1_micro_f1_excludes_no_relation :
    no_relation_label_idx = 0 ∧ specKeptIndices.card = 29 ∧
      ∀ preds labels, klue_re_micro_f1 preds labels = specMicroF1Excl preds labels * 100 := by
  have hmem : ∀ x : ℕ, x ∈ label_indices ↔ x ∈ specKeptIndices := fun x =>
    mem_label_indices.trans mem_specKeptIndices.symm
  refine ⟨no_relation_idx_eq, ?_, fun preds labels => ?_⟩
  · rw [specKeptIndices, no_relation_idx_eq]
    decide
  · have h1 : (fun x : ℕ × ℕ => decide (x.2 = x.1 ∧ x.1 ∈ label_indices))
        = fun x : ℕ × ℕ => decide (x.2 = x.1 ∧ x.1 ∈ specKeptIndices) := by
      funext x
      exact decide_eq_decide.mpr (and_congr_right fun _ => hmem x.1)
    have h2 : (fun x : ℕ × ℕ => decide (x.2 ∈ label_indices ∧ x.1 ≠ x.2))
        = fun x : ℕ × ℕ => decide (x.2 ∈ specKeptIndices ∧ x.1 ≠ x.2) := by
      funext x
      exact decide_eq_decide.mpr (and_congr_left fun _ => hmem x.2)
    have h3 : (fun x : ℕ × ℕ => decide (x.1 ∈ label_indices ∧ x.2 ≠ x.1))
        = fun x : ℕ × ℕ => decide (x.1 ∈ specKeptIndices ∧ x.2 ≠ x.1) := by
      funext x
      exact decide_eq_decide.mpr (and_congr_left fun _ => hmem x.1)
    simp only [klue_re_micro_f1, microF1, microTP, microFP, microFN, specMicroF1Excl,
      h1, h2, h3]

/-- Claim C7: on the batch labels = [0,0,1], preds = [0,1,1] with class 0
being `no_relation`, `klue_re_micro_f1` returns the micro-F1 over the
non-excluded classes — it matches the reference micro-F1 restricted to the
non-`no_relation` label set — and that value is 200/3 ≈ 66.67. -/
theorem claim_C7_concrete_batch_matches_reference :
    klue_re_micro_f1 [0, 1, 1] [0, 0, 1] = specMicroF1Excl [0, 1, 1] [0, 0, 1] * 100 ∧
      klue_re_micro_f1 [0, 1, 1] [0, 0, 1] = 200 / 3 := by
  have hv : klue_re_micro_f1 [0, 1, 1] [0, 0, 1] = 200 / 3 := by
    norm_num [klue_re_micro_f1, microF1, microTP, microFP, microFN, label_indices_eq,
      List.countP, List.countP.go,
      show ¬ (0 ∈ (List.range 30).erase 0) from by decide,
      show (1 ∈ (List.range 30).erase 0) from by decide]
  have hs : specMicroF1Excl [0, 1, 1] [0, 0, 1] = 2 / 3 := by
    norm_num [specMicroF1Excl, specKeptIndices, no_relation_idx_eq,
      List.countP, List.countP.go,
      show ¬ (0 ∈ (Finset.range 30).erase 0) from by decide,
      show (1 ∈ (Finset.range 30).erase 0) from by decide]
  refine ⟨?_, hv⟩
  rw [hv, hs]
  norm_num

/-- Claim C4: whenever predictions equal labels at every example, every
label is in the 30-class space, and at least one example has a true label
different from the `no_relation` index, `klue_re_micro_f1` returns exactly
100. -/
theorem claim_C4_perfect_predictor_scores_100 (preds labels : List ℕ)
    (hp : preds = labels) (hb : ∀ l ∈ labels, l < 30)
    (hx : ∃ l ∈ labels, l ≠ no_relation_label_idx) :
    klue_re_micro_f1 preds labels = 100 := by
  rw [hp]
  have hzip : labels.zip labels = labels.map fun a => (a, a) := zip_self_eq_map labels
  have htp : 0 < microTP labels labels label_indices := by
    rw [microTP, hzip, List.countP_map]
    obtain ⟨l, hl, hne⟩ := hx
    rw [no_relation_idx_eq] at hne
    refine List.countP_pos_iff.mpr ⟨l, hl, ?_⟩
    simp only [Function.comp_apply, decide_eq_true_eq]
    exact ⟨trivial, mem_label_indices.mpr ⟨hne, hb l hl⟩⟩
  have hfp : microFP labels labels label_indices = 0 := by
    rw [microFP, hzip, List.countP_map]
    refine List.countP_eq_zero.mpr fun a _ => ?_
    simp
  have hfn : microFN labels labels label_indices = 0 := by
    rw [microFN, hzip, List.countP_map]
    refine List.countP_eq_zero.mpr fun a _ => ?_
    simp
  have htpq : (0 : ℚ) < (microTP labels labels label_indices : ℚ) := by
    exact_mod_cast htp
  simp only [klue_re_micro_f1, microF1, hfp, hfn]
  rw [if_neg (by omega : ¬ (microTP labels labels label_indices + 0 = 0))]
  push_cast
  rw [add_zero, div_self htpq.ne']
  norm_num

/-- Claim C5: whenever every prediction is the `no_relation` index and at
least one true label is a different in-range class, `klue_re_micro_f1`
returns exactly 0: the pooled true positives and false positives are both
zero, and sklearn's division-by-zero policy degrades precision, recall and
F1 to zero (with a library warning) instead of aborting — the embedded
function is total and yields the zero value. -/
theorem claim_C5_all_no_relation_scores_0 (preds labels : List ℕ)
    (hlen : preds.length = labels.length)
    (hp : ∀ p ∈ preds, p = no_relation_label_idx)
    (hx : ∃ l ∈ labels, l ≠ no_relation_label_idx ∧ l < 30) :
    klue_re_micro_f1 preds labels = 0 := by
  have h0 : (0 : ℕ) ∉ label_indices := by
    rw [mem_label_indices]
    simp
  have htp : microTP labels preds label_indices = 0 := by
    rw [microTP]
    refine List.countP_eq_zero.mpr ?_
    rintro ⟨a, b⟩ hab
    have hb0 : b = 0 := by
      have := hp b (List.of_mem_zip hab).2
      rwa [no_relation_idx_eq] at this
    subst hb0
    simp only [decide_eq_true_eq, not_and]
    rintro rfl
    exact fun h => h0 h
  have hfp : microFP labels preds label_indices = 0 := by
    rw [microFP]
    refine List.countP_eq_zero.mpr ?_
    rintro ⟨a, b⟩ hab
    have hb0 : b = 0 := by
      have := hp b (List.of_mem_zip hab).2
      rwa [no_relation_idx_eq] at this
    subst hb0
    simp only [decide_eq_true_eq, not_and]
    exact fun h => absurd h h0
  have hr : (if microTP labels preds label_indices + microFN labels preds label_indices = 0
      then (0 : ℚ)
      else (microTP labels preds label_indices : ℚ) /
        ((microTP labels preds label_indices : ℚ) + (microFN labels preds label_indices : ℚ)))
      = 0 := by
    rw [htp]
    split
    · rfl
    · push_cast
      rw [zero_div]
  simp only [klue_re_micro_f1, microF1, htp, hfp] at hr ⊢
  rw [hr]
  norm_num

/-- Witness for claim C4 at the concrete perfect batch preds = labels =
[1, 2]. -/
theorem claim_C4_witness : klue_re_micro_f1 [1, 2] [1, 2] = 100 :=
  claim_C4_perfect_predictor_scores_100 [1, 2] [1, 2] rfl (by decide)
    ⟨1, by decide, by rw [no_relation_idx_eq]; decide⟩

/-- Witness for claim C5 at the concrete batch preds = [0, 0],
labels = [0, 5]. -/
theorem claim_C5_witness : klue_re_micro_f1 [0, 0] [0, 5] = 0 :=
  claim_C5_all_no_relation_scores_0 [0, 0] [0, 5] rfl
    (by
      intro p hp
      rw [no_relation_idx_eq]
      simp only [List.mem_cons, List.not_mem_nil, or_false] at hp
      rcases hp with rfl | rfl <;> rfl)
    ⟨5, by decide, by rw [no_relation_idx_eq]; decide, by decide⟩

/-- Claim C3: when every input label is present in the mapping,
`label_to_num` succeeds with the index sequence of the same length and
order; when any label is absent, the lookup error aborts the call with no
partial result. -/
theorem claim_C3_label_to_num_total_or_keyerror (d : List (String × ℕ)) (label : List String) :
    ((∀ v ∈ label, (d.lookup v).isSome) →
      ∃ ns, label_to_num d label = some ns ∧ ns.length = label.length ∧
        ∀ i : ℕ, ns[i]? = label[i]?.bind fun v => d.lookup v)
    ∧ ((∃ v ∈ label, d.lookup v = none) → label_to_num d label = none) := by
  induction label with
  | nil =>
    constructor
    · intro _
      exact ⟨[], rfl, rfl, fun i => by simp⟩
    · rintro ⟨v, hv, _⟩
      exact absurd hv (List.not_mem_nil v)
  | cons v vs ih =>
    constructor
    · intro h
      obtain ⟨n, hn⟩ := Option.isSome_iff_exists.mp (h v (List.mem_cons_self v vs))
      obtain ⟨ns, hns, hlen, hidx⟩ := ih.1 fun w hw => h w (List.mem_cons_of_mem v hw)
      refine ⟨n :: ns, ?_, by simp [hlen], ?_⟩
      · simp only [label_to_num, hn, hns]
        rfl
      · intro i
        cases i with
        | zero => simp [hn]
        | succ j => simpa using hidx j
    · rintro ⟨w, hw, hwnone⟩
      rcases List.mem_cons.mp hw with rfl | hmem
      · simp only [label_to_num, hwnone]
        rfl
      · simp only [label_to_num]
        rw [ih.2 ⟨w, hmem, hwnone⟩]
        cases d.lookup v <;> rfl

/-- Witness for claim C3: with the demo mapping, a fully-mapped input
succeeds positionally and an unmapped input fails. -/
theorem claim_C3_witness :
    (∃ ns, label_to_num demoDict ["org:members", "no_relation"] = some ns ∧
      ns.length = 2 ∧
      ∀ i : ℕ, ns[i]? = (["org:members", "no_relation"])[i]?.bind fun v => demoDict.lookup v) ∧
      label_to_num demoDict ["per:title"] = none := by
  constructor
  · have h := (claim_C3_label_to_num_total_or_keyerror demoDict
      ["org:members", "no_relation"]).1 (by decide)
    simpa using h
  · exact (claim_C3_label_to_num_total_or_keyerror demoDict ["per:title"]).2
      ⟨"per:title", by decide, by decide⟩

/-- Counterexample to claim C9 as stated: during one run of `train`, the
label-conversion phase performs two disk loads of the mapping artifact
(`label_to_num` reopens and unpickles `dict_label_to_num.pkl` on every
call, and `train` calls it twice, lines 96-97), not exactly one. -/
theorem claim_C9_counterexample :
    (trainLabelPhase ⟨demoDict⟩ ["no_relation"] ["org:members"]).2.1 = 2 ∧
      (trainLabelPhase ⟨demoDict⟩ ["no_relation"] ["org:members"]).2.1 ≠ 1 := by
  constructor
  · rfl
  · decide

/-- Claim C9 (amended): during one run of `train`, the mapping artifact is
loaded from disk exactly twice — once per `label_to_num` call, at lines 96
and 97 — rather than exactly once; every load is read-only and leaves the
persisted artifact unchanged for the remainder of the run. -/
theorem claim_C9_amended_two_readonly_loads (disk : Disk)
    (trainLabels devLabels : List String) :
    (trainLabelPhase disk trainLabels devLabels).2.1 = 2 ∧
      (trainLabelPhase disk trainLabels devLabels).2.2 = disk ∧
      (label_to_numLoads disk trainLabels).2.1 = 1 :=
  ⟨rfl, rfl, rfl⟩

/-- Claim C10: `klue_re_auprc` returns a value without an out-of-bounds
error exactly when every label lies in [0, 30); on the concrete input with
label 30 the one-hot step `np.eye(30)[labels]` fails. -/
theorem claim_C10_auprc_requires_labels_below_30 :
    (∀ (probs : List (Fin 30 → ℚ)) (labels : List ℕ),
      (klue_re_auprc probs labels).isSome ↔ ∀ l ∈ labels, l < 30) ∧
      klue_re_auprc demoProbs [30] = none := by
  constructor
  · intro probs labels
    rw [klue_re_auprc]
    by_cases h : labels.all fun l => decide (l < 30)
    · simp only [if_pos h, Option.isSome_some, true_iff]
      intro l hl
      simpa using List.all_eq_true.mp h l hl
    · simp only [if_neg h, Option.isSome_none, Bool.false_eq_true, false_iff]
      intro hall
      exact h (List.all_eq_true.mpr fun l hl => by simpa using hall l hl)
  · rfl

theorem targetsCol_eq (labels : List ℕ) (c : Fin 30) :
    targetsCol labels c = labels.map fun l => decide (l = c.val) := by
  unfold targetsCol
  congr 1
  funext l
  rw [decide_eq_decide]
  unfold oneHotRow
  constructor
  · intro h
    by_contra hne
    rw [if_neg hne] at h
    exact zero_ne_one h
  · intro h
    rw [if_pos h]

/-- Claim C2: for labels inside the 30-class space, `klue_re_auprc` one-hot
encodes the true labels, treats each of the 30 classes (including
`no_relation`) as a binary this-class-vs-rest problem, sweeps the decision
threshold over that class's scores to get its precision-recall curve, takes
the area under it, and returns 100 times the arithmetic mean of the 30
per-class areas. -/
theorem claim_C2_auprc_is_mean_of_class_areas (probs : List (Fin 30 → ℚ))
    (labels : List ℕ) (h : ∀ l ∈ labels, l < 30) :
    klue_re_auprc probs labels = some (specMacroAUPRC probs labels) := by
  rw [klue_re_auprc, if_pos (List.all_eq_true.mpr fun l hl => by simpa using h l hl)]
  rw [specMacroAUPRC]
  have hc : ∀ c : Fin 30, auc_pr (classPairs probs labels c) = specClassAUPRC probs labels c := by
    intro c
    rw [classPairs, targetsCol_eq, specClassAUPRC]
    rfl
  rw [Finset.sum_congr rfl fun c _ => hc c]

/-- Witness for claim C2 at the concrete demo batch. -/
theorem claim_C2_witness :
    klue_re_auprc demoProbs demoLabels = some (specMacroAUPRC demoProbs demoLabels) :=
  claim_C2_auprc_is_mean_of_class_areas demoProbs demoLabels (by decide)

theorem accuracy_score_argmax (pred : EvalPred) :
    accuracy_score pred.label_ids (pred.predictions.map fun r => (argmax30 r).val) =
      specArgmaxAccuracy pred := by
  rw [accuracy_score, specArgmaxAccuracy, List.zip_map_right, List.countP_map]
  congr 1
  norm_cast
  apply List.countP_congr
  rintro ⟨a, b⟩ h
  simp only [Function.comp_apply, Prod.map_apply, id_eq, decide_eq_true_eq]
  exact eq_comm

/-- Claim C8: whenever `compute_metrics` returns, its accuracy equals the
plain fraction of examples whose argmax prediction matches the true label,
over all 30 classes, with no `no_relation` exclusion applied. -/
theorem claim_C8_accuracy_is_plain_argmax_fraction (pred : EvalPred)
    (h : ∀ l ∈ pred.label_ids, l < 30) :
    ∃ m, compute_metrics pred = some m ∧ m.accuracy = specArgmaxAccuracy pred := by
  have hall : (pred.label_ids.all fun l => decide (l < 30)) = true :=
    List.all_eq_true.mpr fun l hl => by simpa using h l hl
  have hsome : klue_re_auprc pred.predictions pred.label_ids =
      some ((∑ c : Fin 30, auc_pr (classPairs pred.predictions pred.label_ids c)) / 30 * 100) := by
    rw [klue_re_auprc, if_pos hall]
  have hval : compute_metrics pred =
      some ⟨klue_re_micro_f1 (pred.predictions.map fun r => (argmax30 r).val) pred.label_ids,
        (∑ c : Fin 30, auc_pr (classPairs pred.predictions pred.label_ids c)) / 30 * 100,
        accuracy_score pred.label_ids (pred.predictions.map fun r => (argmax30 r).val)⟩ := by
    unfold compute_metrics
    simp only [hsome]
  exact ⟨_, hval, accuracy_score_argmax pred⟩

/-- Witness for claim C8 at the concrete demo batch. -/
theorem claim_C8_witness :
    ∃ m, compute_metrics demoPred = some m ∧ m.accuracy = specArgmaxAccuracy demoPred :=
  claim_C8_accuracy_is_plain_argmax_fraction demoPred (by decide)

theorem list_toFinset_map (l : List ℚ) (g : ℚ → ℚ) :
    (l.map g).toFinset = l.toFinset.image g := by
  induction l with
  | nil => simp
  | cons a t ih => simp [ih]

theorem sort_map_of_strictMono {g : ℚ → ℚ} (hg : StrictMono g) (s : Finset ℚ) :
    (s.image g).sort (fun a b => a ≤ b) = (s.sort fun a b => a ≤ b).map g := by
  haveI : IsAntisymm ℚ (fun a b : ℚ => a < b) := ⟨fun a b h h2 => absurd h2 (lt_asymm h)⟩
  refine List.eq_of_perm_of_sorted ?_ (Finset.sort_sorted_lt _)
    (List.Pairwise.map g (fun a b hab => hg hab) (Finset.sort_sorted_lt s))
  rw [← Multiset.coe_eq_coe]
  calc ((s.image g).sort (fun a b => a ≤ b) : Multiset ℚ)
      = (s.image g).val := Finset.sort_eq _ _
    _ = Multiset.map g s.val := Finset.image_val_of_injOn (Set.injOn_of_injective hg.injective)
    _ = Multiset.map g ((s.sort fun a b => a ≤ b : List ℚ) : Multiset ℚ) := by
        rw [Finset.sort_eq]
    _ = (((s.sort fun a b => a ≤ b).map g : List ℚ) : Multiset ℚ) := Multiset.map_coe g _

theorem totalPos_map (g : ℚ → ℚ) (pairs : List (Bool × ℚ)) :
    totalPos (pairs.map fun x => (x.1, g x.2)) = totalPos pairs := by
  unfold totalPos
  rw [List.countP_map]
  rfl

theorem tpAt_map {g : ℚ → ℚ} (hg : StrictMono g) (pairs : List (Bool × ℚ)) (t : ℚ) :
    tpAt (pairs.map fun x => (x.1, g x.2)) (g t) = tpAt pairs t := by
  unfold tpAt
  rw [List.countP_map]
  apply List.countP_congr
  intro x _
  simp only [Function.comp_apply, Bool.and_eq_true, decide_eq_true_eq]
  exact and_congr_right fun _ => hg.le_iff_le

theorem predPosAt_map {g : ℚ → ℚ} (hg : StrictMono g) (pairs : List (Bool × ℚ)) (t : ℚ) :
    predPosAt (pairs.map fun x => (x.1, g x.2)) (g t) = predPosAt pairs t := by
  unfold predPosAt
  rw [List.countP_map]
  apply List.countP_congr
  intro x _
  simp only [Function.comp_apply, decide_eq_true_eq]
  exact hg.le_iff_le

theorem prThresholds_map {g : ℚ → ℚ} (hg : StrictMono g) (pairs : List (Bool × ℚ)) :
    prThresholds (pairs.map fun x => (x.1, g x.2)) = (prThresholds pairs).map g := by
  unfold prThresholds
  rw [List.map_map]
  have hcomp : (Prod.snd ∘ fun x : Bool × ℚ => (x.1, g x.2)) = g ∘ Prod.snd := rfl
  rw [hcomp, ← List.map_map, list_toFinset_map, sort_map_of_strictMono hg]

theorem auc_pr_map {g : ℚ → ℚ} (hg : StrictMono g) (pairs : List (Bool × ℚ)) :
    auc_pr (pairs.map fun x => (x.1, g x.2)) = auc_pr pairs := by
  unfold auc_pr
  congr 1
  unfold prCurvePoints
  rw [prThresholds_map hg, List.map_map]
  congr 1
  refine List.map_congr_left fun t _ => ?_
  simp only [Function.comp_apply]
  have h1 : recallAt (pairs.map fun x => (x.1, g x.2)) (g t) = recallAt pairs t := by
    unfold recallAt
    rw [totalPos_map, tpAt_map hg]
  have h2 : precisionAt (pairs.map fun x => (x.1, g x.2)) (g t) = precisionAt pairs t := by
    unfold precisionAt
    rw [tpAt_map hg, predPosAt_map hg]
  rw [h1, h2]

/-- Claim C6: `klue_re_auprc` is invariant under any per-class strictly
monotone rescaling of the probability scores — the per-class curves and
areas depend only on the relative order of each class's scores. -/
theorem claim_C6_auprc_monotone_rescaling_invariant (probs : List (Fin 30 → ℚ))
    (labels : List ℕ) (f : Fin 30 → ℚ → ℚ) (hf : ∀ c, StrictMono (f c)) :
    klue_re_auprc (probs.map fun r => fun c => f c (r c)) labels =
      klue_re_auprc probs labels := by
  unfold klue_re_auprc
  by_cases h : labels.all fun l => decide (l < 30)
  · rw [if_pos h, if_pos h]
    have hsum : (∑ c : Fin 30, auc_pr (classPairs (probs.map fun r => fun c => f c (r c)) labels c))
        = ∑ c : Fin 30, auc_pr (classPairs probs labels c) := by
      refine Finset.sum_congr rfl fun c _ => ?_
      have hcp : classPairs (probs.map fun r => fun c => f c (r c)) labels c =
          (classPairs probs labels c).map fun x => (x.1, f c x.2) := by
        unfold classPairs predsCol
        rw [List.map_map]
        have hc2 : ((fun r : Fin 30 → ℚ => r c) ∘ fun r : Fin 30 → ℚ => fun d => f d (r d))
            = f c ∘ fun r : Fin 30 → ℚ => r c := rfl
        rw [hc2, ← List.map_map, List.zip_map_right]
        rw [show (Prod.map id (f c)) = fun x : Bool × ℚ => (x.1, f c x.2) from by
          funext x; cases x; rfl]
      rw [hcp, auc_pr_map (hf c)]
    rw [hsum]
  · rw [if_neg h, if_neg h]

/-- Witness for claim C6: the affine rescaling x ↦ 2x + 1 of every class's
scores leaves the metric unchanged on the demo batch. -/
theorem claim_C6_witness :
    klue_re_auprc (demoProbs.map fun r => fun c => 2 * r c + 1) demoLabels =
      klue_re_auprc demoProbs demoLabels :=
  claim_C6_auprc_monotone_rescaling_invariant demoProbs demoLabels
    (fun _ => fun x => 2 * x + 1)
    (fun _ => fun a b hab => by dsimp only; linarith)

end KlueRE
